import Mathlib

/-!
# Verification of the light-analyzer signal-processing core

Shallow embedding of the analysis pipeline of `light_analyzer`
(`analysis.py`, `info_system.py`, `config.py`) and proofs about it.

Modelling conventions:
* numpy float64 arrays are embedded as `List ℚ` (exact arithmetic);
  the decibel conversion `10 * log10` is embedded over `ℝ` via `Real.logb`.
* A Python function that may return `None` (or whose documented failure
  mode is a raised-and-not-caught exception) is embedded with `Option`.
* `np.where(... > t)[0]` on a 1-D array is the list of indices, in
  increasing order, whose value exceeds `t`.
-/

/-- `np.max` on a 1-D array: the maximum element.  The empty case never
occurs in the embedded call sites (they guard on emptiness first); `0` is
an arbitrary total-function default. -/
def npMax : List ℚ → ℚ
  | [] => 0
  | a :: t => t.foldl max a

/-- `np.min` on a 1-D array (same conventions as `npMax`). -/
def npMin : List ℚ → ℚ
  | [] => 0
  | a :: t => t.foldl min a

/-- `np.pad(data, pad, mode='edge')`: replicate the edge values `pad`
times on each side. -/
def padEdge (data : List ℚ) (pad : ℕ) : List ℚ :=
  List.replicate pad (data.headD 0) ++ data ++ List.replicate pad (data.getLastD 0)

/-- `np.convolve(a, v, mode='valid')` (for `v.length ≤ a.length`):
`out[i] = Σ_j a[i + len v - 1 - j] * v[j]`. -/
def convolveValid (a v : List ℚ) : List ℚ :=
  (List.range (a.length + 1 - v.length)).map
    (fun i => ((List.range v.length).map
      (fun j => a.getD (i + (v.length - 1) - j) 0 * v.getD j 0)).sum)

/-- `analysis.moving_average(data, window_size)`.  The window size is a
Python `int`, embedded as `ℤ` (Python `%` and Lean `Int.emod` agree on
sign conventions for positive modulus). -/
def moving_average (data : List ℚ) (window_size : ℤ) : List ℚ :=
  if window_size < 1 ∨ window_size % 2 = 0 then
    -- invalid/disabled window: return original data (warning printed)
    data
  else if (data.length : ℤ) < window_size then
    -- not enough data for the window
    data
  else
    let w : ℕ := window_size.toNat
    let pad_size : ℕ := w / 2
    let padded := padEdge data pad_size
    let weights := List.replicate w (1 / (w : ℚ))  -- np.ones(w) / w
    convolveValid padded weights

/-- The normalized profile `intensity_profile / peak_intensity` computed
inside `calculate_db_profile`. -/
def normalizedProfile (l : List ℚ) : List ℚ :=
  l.map (fun x => x / npMax l)

/-- `np.where(normalized_profile > 1e-9)[0]` inside `calculate_db_profile`. -/
def validIndices (l : List ℚ) : List ℕ :=
  (List.range l.length).filter (fun i => decide ((1e-9 : ℚ) < (normalizedProfile l).getD i 0))

/-- `10 * np.log10(normalized_profile[valid_indices])` inside
`calculate_db_profile`. -/
noncomputable def profileDb (l : List ℚ) : List ℝ :=
  (validIndices l).map (fun i => 10 * Real.logb 10 (((normalizedProfile l).getD i 0 : ℚ) : ℝ))

/-- `analysis.calculate_db_profile(intensity_profile)`: returns the pair
`(profile_db, valid_indices)` or `(None, None)` on the three guarded
failures. -/
noncomputable def calculate_db_profile (intensity_profile : Option (List ℚ)) :
    Option (List ℝ) × Option (List ℕ) :=
  match intensity_profile with
  | none => (none, none)
  | some l =>
    if l.length = 0 then (none, none)
    else if npMax l ≤ 1e-9 then (none, none)  -- degenerate peak
    else if (validIndices l).length = 0 then (none, none)  -- no positive samples
    else (some (profileDb l), some (validIndices l))

/-- `analysis.fit_linear_db(x_data, profile_db)`.  `none` embeds the
raised `ValueError` on missing/mismatched/insufficient data.
`np.polyfit(x, y, 1)` is embedded by the closed-form ordinary
least-squares solution of the normal equations, exact in `ℚ`.  (When the
design matrix is rank-deficient — all `x` equal — numpy's SVD route
returns the minimum-norm least-squares pair; the embedding's convention
`q / 0 = 0` then yields slope `0` and intercept `mean y`, which produces
the same fitted values and residuals at every data point.) -/
def fit_linear_db (x_data profile_db : Option (List ℚ)) : Option (ℚ × ℚ) :=
  match x_data, profile_db with
  | some xs, some ys =>
    if xs.length ≠ ys.length ∨ xs.length < 2 then none
    else
      let n : ℚ := xs.length
      let sx := xs.sum
      let sy := ys.sum
      let sxx := (xs.map (fun x => x * x)).sum
      let sxy := (List.zipWith (fun x y => x * y) xs ys).sum
      let slope := (n * sxy - sx * sy) / (n * sxx - sx ^ 2)
      let intercept := (sy - slope * sx) / n
      some (slope, intercept)
  | _, _ => none

/-- `analysis.calculate_r_squared_linear(x_data, y_data, fit_params)`.
`fit_params` is embedded as an optional `(slope_db, intercept_db)` pair;
`none` output embeds the `None` sentinel (guard failures and caught
exceptions).  A length mismatch makes the numpy residual broadcast raise,
which the function catches and turns into `None`; the embedding returns
`none` there (the claims only exercise equal-length arrays and absent
inputs). -/
def calculate_r_squared_linear (x_data y_data : Option (List ℚ))
    (fit_params : Option (ℚ × ℚ)) : Option ℚ :=
  match fit_params, x_data, y_data with
  | some (slope, intercept), some xs, some ys =>
    if xs.length = 0 then none
    else if xs.length ≠ ys.length then none
    else
      let residuals := List.zipWith (fun y x => y - (slope * x + intercept)) ys xs
      let ss_res := (residuals.map (fun r => r ^ 2)).sum
      let ss_tot := ((ys.map (fun y => (y - ys.sum / (ys.length : ℚ)) ^ 2)).sum)
      if ss_tot ≤ 1e-15 then (if ss_res < 1e-15 then some 1 else some 0)
      else some (1 - ss_res / ss_tot)
  | _, _, _ => none

/-! ## Feedback generator (`info_system.py`) -/

/-- `config.INFO_R_SQUARED_THRESHOLD`. -/
def INFO_R_SQUARED_THRESHOLD : ℚ := 1 / 2

/-- `config.INFO_SLOPE_NEAR_ZERO_THRESHOLD`. -/
def INFO_SLOPE_NEAR_ZERO_THRESHOLD : ℚ := 1e-2

/-- The fit-parameter fields that `generate_feedback` reads. -/
structure FitParams where
  r_squared : ℚ
  slope_db : ℚ
deriving DecidableEq

/-- Tags for the diagnostic messages appended to the `feedback` list, one
per `feedback.append(...)` site in `generate_feedback` (the interpolated
message strings carry no further branching information). -/
inductive FeedbackMsg
  | poorFit
  | goodFit
  | nearZeroSlope
  | gainFitted
  | lossFitted
  | highNoise
  | saturation
deriving DecidableEq

/-- The three shapes of string `generate_feedback` can return:
the early-exit sentinel, the no-issues fallback, and the joined
message list. -/
inductive Report
  | notComplete
  | reasonable
  | messages (msgs : List FeedbackMsg)
deriving DecidableEq

/-- `np.diff(l)`: `out[i] = l[i+1] - l[i]`. -/
def npDiff (l : List ℚ) : List ℚ :=
  List.zipWith (fun a b => b - a) l l.tail

/-- Population mean, `np.mean`. -/
def meanQ (l : List ℚ) : ℚ := l.sum / (l.length : ℚ)

/-- Population variance, the square of `np.std`. -/
def varQ (l : List ℚ) : ℚ :=
  (l.map (fun x => (x - meanQ l) ^ 2)).sum / (l.length : ℚ)

/-- `np.ptp(l)`: peak-to-peak range. -/
def ptpQ (l : List ℚ) : ℚ := npMax l - npMin l

/-- `info_system.generate_feedback(fit_params, intensity_profile, x_data)`.
The source's noise test `np.std(np.diff(p)) / range > 0.5` (guarded by
`range > 1e-9`, so `range > 0`) is embedded square-free by the equivalent
`(range / 2) ^ 2 < var(diff p)`, since `√v / r > 1/2 ↔ v > (r/2)²` for
`r > 0`.  The saturation check calls `np.max` on the profile, which
raises an uncaught `ValueError` on a zero-length array; `none` embeds
that escape. `x_data` is accepted and unused, as in the source. -/
def generate_feedback (fit_params : Option FitParams)
    (intensity_profile : Option (List ℚ)) (x_data : Option (List ℚ)) :
    Option Report :=
  match fit_params, intensity_profile with
  | some p, some l =>
    if l = [] then none
    else
      let fb1 : List FeedbackMsg :=
        [if p.r_squared < INFO_R_SQUARED_THRESHOLD then .poorFit else .goodFit]
      let fb2 : List FeedbackMsg := fb1 ++
        [if |p.slope_db| < INFO_SLOPE_NEAR_ZERO_THRESHOLD then .nearZeroSlope
         else if 0 < p.slope_db then .gainFitted else .lossFitted]
      let fb3 : List FeedbackMsg := fb2 ++
        (if 1 < l.length ∧ 1e-9 < ptpQ l ∧ (ptpQ l / 2) ^ 2 < varQ (npDiff l)
         then [.highNoise] else [])
      let fb4 : List FeedbackMsg := fb3 ++
        (if 60000 ≤ npMax l then [.saturation] else [])
      if fb4 = [] then some .reasonable else some (.messages fb4)
  | _, _ => some .notComplete

/-! ## Helper lemmas: folded maxima -/

lemma le_foldl_max_init (t : List ℚ) (a : ℚ) : a ≤ t.foldl max a := by
  induction t generalizing a with
  | nil => exact le_refl a
  | cons b t ih => exact le_trans (le_max_left a b) (ih (max a b))

lemma le_foldl_max_of_mem {t : List ℚ} {x : ℚ} (hx : x ∈ t) (a : ℚ) :
    x ≤ t.foldl max a := by
  induction t generalizing a with
  | nil => cases hx
  | cons b u ih =>
    rw [List.foldl_cons]
    rcases List.mem_cons.mp hx with h | h
    · rw [h]
      exact le_trans (le_max_right a b) (le_foldl_max_init u (max a b))
    · exact ih h (max a b)

lemma foldl_max_mem (t : List ℚ) (a : ℚ) : t.foldl max a = a ∨ t.foldl max a ∈ t := by
  induction t generalizing a with
  | nil => exact Or.inl rfl
  | cons b u ih =>
    rw [List.foldl_cons]
    rcases ih (max a b) with h | h
    · rw [h]
      rcases max_choice a b with hab | hab
      · exact Or.inl hab
      · rw [hab]
        exact Or.inr (List.mem_cons_self b u)
    · exact Or.inr (List.mem_cons_of_mem b h)

lemma foldl_max_of_le {t : List ℚ} {a : ℚ} (h : ∀ x ∈ t, x ≤ a) : t.foldl max a = a := by
  induction t with
  | nil => rfl
  | cons b t ih =>
    have hb : b ≤ a := h b (List.mem_cons_self b t)
    have : max a b = a := max_eq_left hb
    simpa [List.foldl_cons, this] using ih (fun x hx => h x (List.mem_cons_of_mem b hx))

lemma le_npMax {l : List ℚ} {x : ℚ} (hx : x ∈ l) : x ≤ npMax l := by
  cases l with
  | nil => cases hx
  | cons a t =>
    show x ≤ t.foldl max a
    rcases List.mem_cons.mp hx with h | h
    · exact h ▸ le_foldl_max_init t a
    · exact le_foldl_max_of_mem h a

lemma npMax_mem {l : List ℚ} (h : l ≠ []) : npMax l ∈ l := by
  cases l with
  | nil => exact absurd rfl h
  | cons a t =>
    show t.foldl max a ∈ a :: t
    rcases foldl_max_mem t a with h1 | h1
    · rw [h1]; exact List.mem_cons_self a t
    · exact List.mem_cons_of_mem a h1

lemma npMax_cons_of_le {a : ℚ} {t : List ℚ} (h : ∀ x ∈ t, x ≤ a) :
    npMax (a :: t) = a := by
  show t.foldl max a = a
  exact foldl_max_of_le h

/-! ## Helper lemmas: `getD` and list sums -/

lemma getD_map_of_lt (f : ℚ → ℚ) (l : List ℚ) {i : ℕ} (h : i < l.length)
    (d : ℚ) : (l.map f).getD i d = f (l.getD i 0) := by
  have h2 : i < (l.map f).length := by simpa using h
  rw [List.getD_eq_getElem _ _ h2, List.getD_eq_getElem _ _ h, List.getElem_map]

lemma getD_replicate_of_lt {a d : ℚ} {n j : ℕ} (h : j < n) :
    (List.replicate n a).getD j d = a := by
  rw [List.getD_eq_getElem?_getD, List.getElem?_replicate, if_pos h, Option.getD_some]

lemma sum_range_map (f : ℕ → ℚ) (n : ℕ) :
    ((List.range n).map f).sum = ∑ i ∈ Finset.range n, f i := by
  induction n with
  | zero => simp
  | succ n ih => rw [List.range_succ, Finset.sum_range_succ, List.map_append, List.sum_append, ih]; simp

lemma range_map_getD (l : List ℚ) : (List.range l.length).map (fun i => l.getD i 0) = l := by
  apply List.ext_getElem
  · simp
  · intro n h1 h2
    simp only [List.getElem_map, List.getElem_range]
    exact List.getD_eq_getElem l 0 h2

/-! ## Helper lemmas: the valid index set -/

lemma mem_validIndices {l : List ℚ} {i : ℕ} :
    i ∈ validIndices l ↔ i < l.length ∧ (1e-9 : ℚ) < (normalizedProfile l).getD i 0 := by
  simp [validIndices, List.mem_filter, List.mem_range]

lemma validIndices_pairwise (l : List ℚ) : (validIndices l).Pairwise (· < ·) :=
  List.Pairwise.sublist (List.filter_sublist _) (List.pairwise_lt_range _)

lemma validIndices_eq_nil_iff {l : List ℚ} :
    validIndices l = [] ↔ ∀ i < l.length, (normalizedProfile l).getD i 0 ≤ (1e-9 : ℚ) := by
  rw [validIndices, List.filter_eq_nil_iff]
  constructor
  · intro h i hi
    have := h i (List.mem_range.mpr hi)
    simpa [not_lt] using this
  · intro h i hi
    have := h i (List.mem_range.mp hi)
    simpa [not_lt] using this

/-! ## Helper lemmas: shape of `calculate_db_profile` results -/

lemma calc_db_profile_success {l : List ℚ} (h1 : l ≠ []) (h2 : ¬ npMax l ≤ 1e-9)
    (h3 : validIndices l ≠ []) :
    calculate_db_profile (some l) = (some (profileDb l), some (validIndices l)) := by
  have hl : ¬ l.length = 0 := fun h => h1 (List.length_eq_zero.mp h)
  have hv : ¬ (validIndices l).length = 0 := fun h => h3 (List.length_eq_zero.mp h)
  simp only [calculate_db_profile, if_neg hl, if_neg h2, if_neg hv]

lemma calc_db_profile_some_inv {l : List ℚ} {db : List ℝ} {idxs : List ℕ}
    (h : calculate_db_profile (some l) = (some db, some idxs)) :
    db = profileDb l ∧ idxs = validIndices l ∧
      l ≠ [] ∧ 1e-9 < npMax l ∧ validIndices l ≠ [] := by
  by_cases h1 : l.length = 0
  · simp [calculate_db_profile, h1] at h
  by_cases h2 : npMax l ≤ 1e-9
  · simp [calculate_db_profile, h1, h2] at h
  by_cases h3 : (validIndices l).length = 0
  · simp [calculate_db_profile, h1, h2, h3] at h
  · have := calc_db_profile_success (fun hn => h1 (by simp [hn]))
      h2 (fun hn => h3 (by simp [hn]))
    rw [this] at h
    obtain ⟨hdb, hidx⟩ := Prod.mk.injEq _ _ _ _ ▸ h
    refine ⟨(Option.some.inj hdb).symm, (Option.some.inj hidx).symm,
      fun hn => h1 (by simp [hn]), not_le.mp h2, fun hn => h3 (by simp [hn])⟩

/-! ## Helper lemmas: least-squares algebra -/

lemma sum_sq_dev_expand (l : List ℚ) (c : ℚ) :
    (l.map (fun x => (x - c) ^ 2)).sum
      = (l.map (fun x => x ^ 2)).sum - 2 * c * l.sum + c ^ 2 * l.length := by
  induction l with
  | nil => simp
  | cons a t ih =>
    simp only [List.map_cons, List.sum_cons, List.length_cons, ih]
    push_cast
    ring

lemma cauchy_sq_le (l : List ℚ) :
    l.sum ^ 2 ≤ (l.length : ℚ) * (l.map (fun x => x ^ 2)).sum := by
  induction l with
  | nil => simp
  | cons a t ih =>
    have hnn : 0 ≤ (t.map (fun x => (x - a) ^ 2)).sum := by
      apply List.sum_nonneg
      intro x hx
      obtain ⟨y, _, rfl⟩ := List.mem_map.mp hx
      positivity
    rw [sum_sq_dev_expand] at hnn
    simp only [List.sum_cons, List.map_cons, List.length_cons]
    push_cast
    nlinarith [ih, hnn]

lemma zip_res_expand (ys xs : List ℚ) (h : ys.length = xs.length) (m b : ℚ) :
    (List.zipWith (fun y x => (y - (m * x + b)) ^ 2) ys xs).sum
      = (ys.map (fun y => y ^ 2)).sum
        - 2 * m * (List.zipWith (fun x y => x * y) xs ys).sum
        - 2 * b * ys.sum
        + m ^ 2 * (xs.map (fun x => x ^ 2)).sum
        + 2 * m * b * xs.sum + b ^ 2 * xs.length := by
  induction ys generalizing xs with
  | nil =>
    cases xs with
    | nil => simp
    | cons x tx => simp at h
  | cons y ty ih =>
    cases xs with
    | nil => simp at h
    | cons x tx =>
      have h2 : ty.length = tx.length := by simpa using h
      simp only [List.zipWith_cons_cons, List.sum_cons, List.map_cons, List.length_cons]
      rw [ih tx h2]
      push_cast
      ring

lemma ols_ssres_le_sstot {n sx sy sxx sxy sy2 m b : ℚ} (hn : 0 < n)
    (hcs : sx ^ 2 ≤ n * sxx)
    (hm : m = (n * sxy - sx * sy) / (n * sxx - sx ^ 2))
    (hb : b = (sy - m * sx) / n) :
    sy2 - 2 * m * sxy - 2 * b * sy + m ^ 2 * sxx + 2 * m * b * sx + b ^ 2 * n
      ≤ sy2 - 2 * (sy / n) * sy + (sy / n) ^ 2 * n := by
  subst hb
  subst hm
  rcases eq_or_ne (n * sxx - sx ^ 2) 0 with hD | hD
  · rw [hD, div_zero]
    apply le_of_eq
    field_simp
  · have hDpos : 0 < n * sxx - sx ^ 2 :=
      lt_of_le_of_ne (by linarith) (Ne.symm hD)
    have key :
        sy2 - 2 * ((n * sxy - sx * sy) / (n * sxx - sx ^ 2)) * sxy
          - 2 * ((sy - (n * sxy - sx * sy) / (n * sxx - sx ^ 2) * sx) / n) * sy
          + ((n * sxy - sx * sy) / (n * sxx - sx ^ 2)) ^ 2 * sxx
          + 2 * ((n * sxy - sx * sy) / (n * sxx - sx ^ 2))
            * ((sy - (n * sxy - sx * sy) / (n * sxx - sx ^ 2) * sx) / n) * sx
          + ((sy - (n * sxy - sx * sy) / (n * sxx - sx ^ 2) * sx) / n) ^ 2 * n
        = (sy2 - 2 * (sy / n) * sy + (sy / n) ^ 2 * n)
          - (n * sxy - sx * sy) ^ 2 / (n * (n * sxx - sx ^ 2)) := by
      field_simp
      ring
    rw [key]
    have hnn : 0 ≤ (n * sxy - sx * sy) ^ 2 / (n * (n * sxx - sx ^ 2)) :=
      div_nonneg (sq_nonneg _) (mul_nonneg hn.le hDpos.le)
    linarith

/-! ## Helper lemmas: convolution -/

lemma padEdge_zero (data : List ℚ) : padEdge data 0 = data := by
  simp [padEdge]

lemma convolveValid_one (a : List ℚ) : convolveValid a [1] = a := by
  rw [convolveValid]
  have h1 : a.length + 1 - ([(1:ℚ)].length) = a.length := by simp
  rw [h1]
  have h2 : ∀ i ∈ List.range a.length,
      ((List.range ([(1:ℚ)].length)).map
        (fun j => a.getD (i + ([(1:ℚ)].length - 1) - j) 0 * [(1:ℚ)].getD j 0)).sum
      = a.getD i 0 := by
    intro i _
    rw [show List.range ([(1:ℚ)].length) = [0] from rfl]
    simp
  rw [List.map_congr_left h2, range_map_getD]

/-- C6: for every sequence and every odd window `w` with `3 ≤ w ≤ length`,
the smoother equals the box average of the edge-padded sequence (padding
`w / 2` on each side), its output length equals the input length, and on
`[1,3,5,7,9]` with window 3 it yields `[5/3, 3, 5, 7, 25/3]`. -/
theorem claim_C6 (data : List ℚ) (w : ℕ) (hodd : w % 2 = 1) (h3 : 3 ≤ w)
    (hlen : w ≤ data.length) :
    (moving_average data (w : ℤ)).length = data.length ∧
    moving_average data (w : ℤ) = (List.range data.length).map
      (fun i => ((List.range w).map
        (fun k => (padEdge data (w / 2)).getD (i + k) 0)).sum / (w : ℚ)) ∧
    moving_average [1, 3, 5, 7, 9] 3 = [5/3, 3, 5, 7, 25/3] := by
  have hg1 : ¬((w : ℤ) < 1 ∨ (w : ℤ) % 2 = 0) := by omega
  have hg2 : ¬((data.length : ℤ) < (w : ℤ)) := by omega
  have key : moving_average data (w : ℤ) = (List.range data.length).map
      (fun i => ((List.range w).map
        (fun k => (padEdge data (w / 2)).getD (i + k) 0)).sum / (w : ℚ)) := by
    rw [moving_average, if_neg hg1, if_neg hg2, Int.toNat_natCast, convolveValid]
    have harg : (padEdge data (w / 2)).length + 1
        - (List.replicate w (1 / (w : ℚ))).length = data.length := by
      simp only [padEdge, List.length_append, List.length_replicate]
      omega
    rw [harg]
    apply List.map_congr_left
    intro i _
    have hinner : (List.range ((List.replicate w (1 / (w:ℚ))).length)).map
        (fun j => (padEdge data (w / 2)).getD
          (i + ((List.replicate w (1 / (w:ℚ))).length - 1) - j) 0
          * (List.replicate w (1 / (w:ℚ))).getD j 0)
        = (List.range w).map
          (fun j => (padEdge data (w / 2)).getD (i + (w - 1 - j)) 0 * (1 / (w:ℚ))) := by
      rw [List.length_replicate]
      apply List.map_congr_left
      intro j hj
      have hjw : j < w := List.mem_range.mp hj
      rw [getD_replicate_of_lt hjw]
      congr 2
      omega
    rw [hinner, sum_range_map, sum_range_map, ← Finset.sum_mul,
      Finset.sum_range_reflect (fun k => (padEdge data (w / 2)).getD (i + k) 0) w,
      mul_one_div]
  refine ⟨?_, key, ?_⟩
  · rw [key]
    simp
  · norm_num [moving_average, padEdge, convolveValid, List.range_succ,
      List.replicate, List.getD, show (3:ℤ).toNat = 3 from rfl]

theorem claim_C6_witness :
    3 % 2 = 1 ∧ 3 ≤ 3 ∧ 3 ≤ ([1, 3, 5, 7, 9] : List ℚ).length ∧
    (moving_average [1, 3, 5, 7, 9] (3 : ℤ)).length = 5 ∧
    moving_average [1, 3, 5, 7, 9] 3 = [5/3, 3, 5, 7, 25/3] := by
  obtain ⟨h1, _, h3⟩ := claim_C6 [1, 3, 5, 7, 9] 3 (by decide) (by decide) (by decide)
  exact ⟨rfl, by decide, by decide, by simpa using h1, h3⟩

/-- C7: the smoother is the identity when the window is 1, when the window
is even or below 1 (invalid configuration), and when the sequence is
shorter than the window; none of these cases fails. -/
theorem claim_C7 (data : List ℚ) (w : ℤ)
    (h : w = 1 ∨ w < 1 ∨ w % 2 = 0 ∨ (data.length : ℤ) < w) :
    moving_average data w = data := by
  rw [moving_average]
  split_ifs with h1 h2
  · rfl
  · rfl
  · have hw1 : w = 1 := by omega
    subst hw1
    show convolveValid (padEdge data ((1:ℤ).toNat / 2))
      (List.replicate (1:ℤ).toNat (1 / (((1:ℤ).toNat : ℕ) : ℚ))) = data
    have hrep : List.replicate ((1:ℤ).toNat) (1 / (((1:ℤ).toNat : ℕ) : ℚ)) = [1] := by
      norm_num [List.replicate, show (1:ℤ).toNat = 1 from rfl]
    rw [hrep, show (1:ℤ).toNat / 2 = 0 from rfl, padEdge_zero, convolveValid_one]

theorem claim_C7_witness : moving_average [1, 2, 3, 4, 5] 4 = [1, 2, 3, 4, 5] :=
  claim_C7 [1, 2, 3, 4, 5] 4 (Or.inr (Or.inr (Or.inl (by decide))))

/-- C1: on positions `[0,1,2,3]` and dB values `[0,-2,-4,-6]` the linear
fitter returns slope `-2` and intercept `0` (within `1e-9`), and the fit
evaluator returns `r_squared = 1` on the same data and parameters. -/
theorem claim_C1 : ∃ m b : ℚ,
    fit_linear_db (some [0, 1, 2, 3]) (some [0, -2, -4, -6]) = some (m, b) ∧
    |m - (-2)| ≤ 1e-9 ∧ |b - 0| ≤ 1e-9 ∧
    calculate_r_squared_linear (some [0, 1, 2, 3]) (some [0, -2, -4, -6])
      (some (m, b)) = some 1 :=
  ⟨-2, 0, by norm_num [fit_linear_db], by norm_num, by norm_num,
    by norm_num [calculate_r_squared_linear]⟩

lemma calc_db_profile_fail {l : List ℚ}
    (h : l = [] ∨ npMax l ≤ 1e-9 ∨ validIndices l = []) :
    calculate_db_profile (some l) = (none, none) := by
  simp only [calculate_db_profile]
  rcases h with h | h | h
  · rw [if_pos (by simp [h])]
  · by_cases h0 : l.length = 0
    · rw [if_pos h0]
    · rw [if_neg h0, if_pos h]
  · by_cases h0 : l.length = 0
    · rw [if_pos h0]
    · rw [if_neg h0]
      by_cases h1 : npMax l ≤ 1e-9
      · rw [if_pos h1]
      · rw [if_neg h1, if_pos (by simp [h])]

lemma calc_db_profile_fail_inv {l : List ℚ}
    (h : calculate_db_profile (some l) = (none, none)) :
    l = [] ∨ npMax l ≤ 1e-9 ∨ validIndices l = [] := by
  by_contra hc
  push_neg at hc
  rw [calc_db_profile_success hc.1 (not_le.mpr hc.2.1) hc.2.2] at h
  simp at h

/-- C2: whenever the dB normalizer succeeds, the dB profile and the valid
index set have equal length, and the index set is strictly increasing
with every index below the input length. -/
theorem claim_C2 (l : List ℚ) (db : List ℝ) (idxs : List ℕ)
    (h : calculate_db_profile (some l) = (some db, some idxs)) :
    db.length = idxs.length ∧ idxs.Pairwise (· < ·) ∧ ∀ i ∈ idxs, i < l.length := by
  obtain ⟨hdb, hidx, -, -, -⟩ := calc_db_profile_some_inv h
  subst hdb
  subst hidx
  refine ⟨by simp [profileDb], validIndices_pairwise l, ?_⟩
  intro i hi
  exact (mem_validIndices.mp hi).1

theorem claim_C2_witness :
    calculate_db_profile (some [1]) = (some (profileDb [1]), some (validIndices [1])) ∧
    (profileDb [1]).length = (validIndices [1]).length ∧
    (validIndices [1]).Pairwise (· < ·) ∧
    ∀ i ∈ validIndices [1], i < ([1] : List ℚ).length := by
  have h1 : validIndices [1] = [0] := by
    norm_num [validIndices, normalizedProfile, npMax, List.range_succ, List.filter]
  have hs : calculate_db_profile (some [1]) =
      (some (profileDb [1]), some (validIndices [1])) :=
    calc_db_profile_success (by simp) (by norm_num [npMax]) (by simp [h1])
  exact ⟨hs, claim_C2 [1] (profileDb [1]) (validIndices [1]) hs⟩

/-- C3: the dB normalizer returns `(none, none)` exactly when the input is
absent, empty, has peak at most `1e-9`, or has no sample whose normalized
value exceeds `1e-9`; in every other case it returns a `some` pair. -/
theorem claim_C3 (ip : Option (List ℚ)) :
    (calculate_db_profile ip = (none, none) ↔
      ip = none ∨ ∃ l, ip = some l ∧
        (l = [] ∨ npMax l ≤ 1e-9 ∨
          ∀ i < l.length, (normalizedProfile l).getD i 0 ≤ (1e-9 : ℚ))) ∧
    (calculate_db_profile ip = (none, none) ∨
      ∃ db idxs, calculate_db_profile ip = (some db, some idxs)) := by
  cases ip with
  | none => simp [calculate_db_profile]
  | some l =>
    constructor
    · constructor
      · intro h
        refine Or.inr ⟨l, rfl, ?_⟩
        rcases calc_db_profile_fail_inv h with h1 | h1 | h1
        · exact Or.inl h1
        · exact Or.inr (Or.inl h1)
        · exact Or.inr (Or.inr (validIndices_eq_nil_iff.mp h1))
      · intro h
        rcases h with h | ⟨l2, hl2, hcase⟩
        · simp at h
        · obtain rfl : l = l2 := Option.some.inj hl2
          apply calc_db_profile_fail
          rcases hcase with h | h | h
          · exact Or.inl h
          · exact Or.inr (Or.inl h)
          · exact Or.inr (Or.inr (validIndices_eq_nil_iff.mpr h))
    · by_cases hf : l = [] ∨ npMax l ≤ 1e-9 ∨ validIndices l = []
      · exact Or.inl (calc_db_profile_fail hf)
      · push_neg at hf
        exact Or.inr ⟨profileDb l, validIndices l,
          calc_db_profile_success hf.1 (not_le.mpr hf.2.1) hf.2.2⟩

/-- C10: whenever the dB normalizer succeeds, every dB value is at most 0
and the maximum dB value is exactly 0 (attained at a peak index). -/
theorem claim_C10 (l : List ℚ) (db : List ℝ) (idxs : List ℕ)
    (h : calculate_db_profile (some l) = (some db, some idxs)) :
    (∀ v ∈ db, v ≤ 0) ∧ (0 : ℝ) ∈ db ∧ db.maximum = ((0 : ℝ) : WithBot ℝ) := by
  obtain ⟨hdb, hidx, hne, hpeak, hvne⟩ := calc_db_profile_some_inv h
  subst hdb
  subst hidx
  have hpeak0 : (0 : ℚ) < npMax l := lt_trans (by norm_num) hpeak
  have hub : ∀ v ∈ profileDb l, v ≤ 0 := by
    intro v hv
    obtain ⟨i, hi, rfl⟩ := List.mem_map.mp hv
    obtain ⟨hilen, hival⟩ := mem_validIndices.mp hi
    have hq : (normalizedProfile l).getD i 0 ≤ 1 := by
      rw [normalizedProfile, getD_map_of_lt _ _ hilen]
      have hmem : l.getD i 0 ∈ l := by
        rw [List.getD_eq_getElem l 0 hilen]
        exact List.getElem_mem hilen
      exact div_le_one_of_le₀ (le_npMax hmem) hpeak0.le
    have hq0 : (0 : ℚ) < (normalizedProfile l).getD i 0 := lt_trans (by norm_num) hival
    have hlog : Real.logb 10 (((normalizedProfile l).getD i 0 : ℚ) : ℝ) ≤ 0 := by
      apply Real.logb_nonpos (by norm_num)
      · exact_mod_cast hq0.le
      · exact_mod_cast hq
    linarith
  obtain ⟨i, hilen, hival⟩ := List.mem_iff_getElem.mp (npMax_mem hne)
  have hnorm1 : (normalizedProfile l).getD i 0 = 1 := by
    rw [normalizedProfile, getD_map_of_lt _ _ hilen, List.getD_eq_getElem l 0 hilen, hival]
    exact div_self hpeak0.ne'
  have hmemvi : i ∈ validIndices l := mem_validIndices.mpr ⟨hilen, by rw [hnorm1]; norm_num⟩
  have hzero : (0 : ℝ) ∈ profileDb l := by
    rw [profileDb]
    apply List.mem_map.mpr
    refine ⟨i, hmemvi, ?_⟩
    rw [hnorm1]
    push_cast
    rw [Real.logb_one]
    ring
  exact ⟨hub, hzero, List.maximum_eq_coe_iff.mpr ⟨hzero, hub⟩⟩

theorem claim_C10_witness :
    (∀ v ∈ profileDb [2, 1], v ≤ 0) ∧ (0 : ℝ) ∈ profileDb [2, 1] ∧
    (profileDb [2, 1]).maximum = ((0 : ℝ) : WithBot ℝ) := by
  have hmax : npMax [2, 1] = 2 := npMax_cons_of_le (by norm_num)
  have h1 : validIndices [2, 1] ≠ [] := by
    have : validIndices [2, 1] = [0, 1] := by
      norm_num [validIndices, normalizedProfile, npMax, List.range_succ, List.filter]
    simp [this]
  have hs : calculate_db_profile (some [2, 1]) =
      (some (profileDb [2, 1]), some (validIndices [2, 1])) :=
    calc_db_profile_success (by simp) (by rw [hmax]; norm_num) h1
  exact claim_C10 [2, 1] (profileDb [2, 1]) (validIndices [2, 1]) hs

/-- C8 counterexample: the profile `[1e-10]` is strictly positive and
monotonically decreasing, yet the dB normalizer fails on it (its peak is
at most `1e-9`), so the claim as stated is false. -/
theorem claim_C8_counterexample :
    (0 : ℚ) < 1 / 10000000000 ∧
    ([(1 : ℚ) / 10000000000]).Pairwise (· ≥ ·) ∧
    calculate_db_profile (some [(1 : ℚ) / 10000000000]) = (none, none) := by
  refine ⟨by norm_num, by simp, ?_⟩
  apply calc_db_profile_fail
  refine Or.inr (Or.inl ?_)
  norm_num [npMax]

/-- C8 (amended): for every nonempty, strictly positive, monotonically
decreasing profile whose peak exceeds `1e-9`, the dB normalizer succeeds,
the dB profile is monotonically decreasing, and the peak position 0 is in
the valid index set with dB value 0. -/
theorem claim_C8_amended (l : List ℚ) (hne : l ≠ []) (hpos : ∀ v ∈ l, 0 < v)
    (hdec : l.Pairwise (· ≥ ·)) (hpeak : 1e-9 < npMax l) :
    calculate_db_profile (some l) = (some (profileDb l), some (validIndices l)) ∧
    (profileDb l).Pairwise (· ≥ ·) ∧
    0 ∈ validIndices l ∧
    10 * Real.logb 10 (((normalizedProfile l).getD 0 0 : ℚ) : ℝ) = 0 ∧
    (0 : ℝ) ∈ profileDb l := by
  have hpeak0 : (0 : ℚ) < npMax l := lt_trans (by norm_num) hpeak
  have hlen0 : 0 < l.length := List.length_pos.mpr hne
  obtain ⟨a, t, rfl⟩ : ∃ a t, l = a :: t := by
    cases l with
    | nil => exact absurd rfl hne
    | cons a t => exact ⟨a, t, rfl⟩
  have hhead : npMax (a :: t) = a :=
    npMax_cons_of_le (fun x hx => (List.pairwise_cons.mp hdec).1 x hx)
  have hnorm0 : (normalizedProfile (a :: t)).getD 0 0 = 1 := by
    rw [normalizedProfile, getD_map_of_lt _ _ hlen0]
    rw [show (a :: t).getD 0 0 = a from rfl, hhead]
    exact div_self (by rw [hhead] at hpeak0; exact hpeak0.ne')
  have h0mem : 0 ∈ validIndices (a :: t) :=
    mem_validIndices.mpr ⟨hlen0, by rw [hnorm0]; norm_num⟩
  have hsucc : calculate_db_profile (some (a :: t)) =
      (some (profileDb (a :: t)), some (validIndices (a :: t))) :=
    calc_db_profile_success hne (not_le.mpr hpeak) (List.ne_nil_of_mem h0mem)
  have hdb0 : 10 * Real.logb 10 (((normalizedProfile (a :: t)).getD 0 0 : ℚ) : ℝ) = 0 := by
    rw [hnorm0]
    push_cast
    rw [Real.logb_one]
    ring
  have hmono : (profileDb (a :: t)).Pairwise (· ≥ ·) := by
    rw [profileDb, List.pairwise_iff_getElem]
    intro p q hp hq hpq
    have hp2 : p < (validIndices (a :: t)).length := by simpa using hp
    have hq2 : q < (validIndices (a :: t)).length := by simpa using hq
    simp only [List.getElem_map]
    have hij : (validIndices (a :: t))[p] < (validIndices (a :: t))[q] :=
      List.pairwise_iff_getElem.mp (validIndices_pairwise (a :: t)) p q hp2 hq2 hpq
    obtain ⟨hplen, hpval⟩ := mem_validIndices.mp (List.getElem_mem hp2)
    obtain ⟨hqlen, hqval⟩ := mem_validIndices.mp (List.getElem_mem hq2)
    have hle : (a :: t).getD ((validIndices (a :: t))[q]) 0
        ≤ (a :: t).getD ((validIndices (a :: t))[p]) 0 := by
      have := List.pairwise_iff_getElem.mp hdec
        ((validIndices (a :: t))[p]) ((validIndices (a :: t))[q]) hplen hqlen hij
      rw [List.getD_eq_getElem _ 0 hqlen, List.getD_eq_getElem _ 0 hplen]
      exact this
    have hnq : (normalizedProfile (a :: t)).getD ((validIndices (a :: t))[q]) 0
        ≤ (normalizedProfile (a :: t)).getD ((validIndices (a :: t))[p]) 0 := by
      rw [normalizedProfile, getD_map_of_lt _ _ hplen, getD_map_of_lt _ _ hqlen]
      exact (div_le_div_iff_of_pos_right hpeak0).mpr hle
    have hq0 : (0 : ℚ) < (normalizedProfile (a :: t)).getD ((validIndices (a :: t))[q]) 0 :=
      lt_trans (by norm_num) hqval
    have hp0 : (0 : ℚ) < (normalizedProfile (a :: t)).getD ((validIndices (a :: t))[p]) 0 :=
      lt_trans (by norm_num) hpval
    have hlog : Real.logb 10 (((normalizedProfile (a :: t)).getD ((validIndices (a :: t))[q]) 0 : ℚ) : ℝ)
        ≤ Real.logb 10 (((normalizedProfile (a :: t)).getD ((validIndices (a :: t))[p]) 0 : ℚ) : ℝ) := by
      rw [Real.logb_le_logb (by norm_num) (by exact_mod_cast hq0) (by exact_mod_cast hp0)]
      exact_mod_cast hnq
    linarith
  have h0db : (0 : ℝ) ∈ profileDb (a :: t) := by
    rw [profileDb]
    exact List.mem_map.mpr ⟨0, h0mem, hdb0⟩
  exact ⟨hsucc, hmono, h0mem, hdb0, h0db⟩

theorem claim_C8_witness :
    calculate_db_profile (some [4, 2, 1]) =
      (some (profileDb [4, 2, 1]), some (validIndices [4, 2, 1])) ∧
    (profileDb [4, 2, 1]).Pairwise (· ≥ ·) ∧
    0 ∈ validIndices [4, 2, 1] ∧
    10 * Real.logb 10 (((normalizedProfile [4, 2, 1]).getD 0 0 : ℚ) : ℝ) = 0 ∧
    (0 : ℝ) ∈ profileDb [4, 2, 1] := by
  apply claim_C8_amended
  · simp
  · intro v hv
    rcases List.mem_cons.mp hv with h | hv2
    · rw [h]; norm_num
    rcases List.mem_cons.mp hv2 with h | hv3
    · rw [h]; norm_num
    rcases List.mem_cons.mp hv3 with h | hv4
    · rw [h]; norm_num
    · cases hv4
  · norm_num [List.pairwise_cons]
  · rw [npMax_cons_of_le (by norm_num)]
    norm_num

lemma zip_sq_sum_nonneg (ys xs : List ℚ) (m b : ℚ) :
    0 ≤ (List.zipWith (fun y x => (y - (m * x + b)) ^ 2) ys xs).sum := by
  induction ys generalizing xs with
  | nil => simp
  | cons y ty ih =>
    cases xs with
    | nil => simp
    | cons x tx =>
      simp only [List.zipWith_cons_cons, List.sum_cons]
      have := ih tx
      positivity

lemma calc_r2_eq (xs ys : List ℚ) (m b : ℚ) (hne : xs ≠ []) (hlen : xs.length = ys.length) :
    calculate_r_squared_linear (some xs) (some ys) (some (m, b)) =
      some (if (ys.map (fun y => (y - meanQ ys) ^ 2)).sum ≤ 1e-15 then
              (if (List.zipWith (fun y x => (y - (m * x + b)) ^ 2) ys xs).sum < 1e-15
               then 1 else 0)
            else 1 - (List.zipWith (fun y x => (y - (m * x + b)) ^ 2) ys xs).sum
                    / (ys.map (fun y => (y - meanQ ys) ^ 2)).sum) := by
  have h0 : ¬ xs.length = 0 := fun h => hne (List.length_eq_zero.mp h)
  have h1 : ¬ (xs.length ≠ ys.length) := fun h => h hlen
  simp only [calculate_r_squared_linear, if_neg h0, if_neg h1, List.map_zipWith, meanQ]
  split_ifs <;> rfl

/-- C4: the fit evaluator returns `1 − SS_res/SS_tot` for the residual and
total sums of squares described by the spec, with the degenerate
`SS_tot ≤ 1e-15` branch returning 1 when `SS_res < 1e-15` and 0 otherwise,
and returns the `none` sentinel when the fit parameters or either input
array is absent. -/
theorem claim_C4 :
    (∀ (xs ys : List ℚ) (m b : ℚ), xs.length = ys.length → xs ≠ [] →
      calculate_r_squared_linear (some xs) (some ys) (some (m, b)) =
        some (if (ys.map (fun y => (y - meanQ ys) ^ 2)).sum ≤ 1e-15 then
                (if (List.zipWith (fun y x => (y - (m * x + b)) ^ 2) ys xs).sum < 1e-15
                 then 1 else 0)
              else 1 - (List.zipWith (fun y x => (y - (m * x + b)) ^ 2) ys xs).sum
                      / (ys.map (fun y => (y - meanQ ys) ^ 2)).sum)) ∧
    (∀ (x y : Option (List ℚ)) (p : Option (ℚ × ℚ)),
      p = none ∨ x = none ∨ y = none → calculate_r_squared_linear x y p = none) := by
  constructor
  · intro xs ys m b hlen hne
    exact calc_r2_eq xs ys m b hne hlen
  · intro x y p h
    rcases h with rfl | rfl | rfl
    · cases x with
      | none => rfl
      | some xs =>
        cases y with
        | none => rfl
        | some ys => rfl
    · cases p with
      | none => rfl
      | some mb =>
        obtain ⟨m0, b0⟩ := mb
        rfl
    · cases p with
      | none => rfl
      | some mb =>
        obtain ⟨m0, b0⟩ := mb
        cases x with
        | none => rfl
        | some xs => rfl

theorem claim_C4_witness :
    calculate_r_squared_linear (some [0, 1]) (some [5, 5]) (some (0, 0)) = some 0 ∧
    calculate_r_squared_linear none (some [5, 5]) (some (0, 0)) = none := by
  constructor
  · have h := claim_C4.1 [0, 1] [5, 5] 0 0 rfl (by simp)
    rw [h]
    norm_num [meanQ]
  · exact claim_C4.2 none (some [5, 5]) (some (0, 0)) (Or.inr (Or.inl rfl))

/-- C5: whenever the fitter's own least-squares parameters are fed back
into the fit evaluator on the same equal-length arrays (length ≥ 2), the
returned `r_squared` lies in `[0, 1]`. -/
theorem claim_C5 (xs ys : List ℚ) (hlen : xs.length = ys.length) (h2 : 2 ≤ xs.length)
    (m b r : ℚ) (hfit : fit_linear_db (some xs) (some ys) = some (m, b))
    (hr : calculate_r_squared_linear (some xs) (some ys) (some (m, b)) = some r) :
    0 ≤ r ∧ r ≤ 1 := by
  have hne : xs ≠ [] := by
    intro h
    rw [h] at h2
    simp at h2
  -- extract the closed-form fit parameters
  have hguard : ¬ (xs.length ≠ ys.length ∨ xs.length < 2) := by
    push_neg
    exact ⟨hlen, h2⟩
  simp only [fit_linear_db, if_neg hguard] at hfit
  have hfit2 := Option.some.inj hfit
  have hxx : (xs.map (fun x => x * x)).sum = (xs.map (fun x => x ^ 2)).sum := by
    apply congrArg List.sum
    apply List.map_congr_left
    intro x _
    rw [pow_two]
  have hm : m = ((xs.length : ℚ) * (List.zipWith (fun x y => x * y) xs ys).sum
      - xs.sum * ys.sum)
      / ((xs.length : ℚ) * (xs.map (fun x => x ^ 2)).sum - xs.sum ^ 2) := by
    rw [← hxx]
    exact (congrArg Prod.fst hfit2).symm
  have hb : b = (ys.sum - m * xs.sum) / (xs.length : ℚ) := by
    rw [hm, ← hxx]
    exact (congrArg Prod.snd hfit2).symm
  -- the r² branch expression
  rw [calc_r2_eq xs ys m b hne hlen] at hr
  have hr2 := Option.some.inj hr
  have hres0 : 0 ≤ (List.zipWith (fun y x => (y - (m * x + b)) ^ 2) ys xs).sum :=
    zip_sq_sum_nonneg ys xs m b
  have htot0 : 0 ≤ (ys.map (fun y => (y - meanQ ys) ^ 2)).sum := by
    apply List.sum_nonneg
    intro t ht
    obtain ⟨y, -, rfl⟩ := List.mem_map.mp ht
    positivity
  have hn : (0 : ℚ) < (xs.length : ℚ) := by
    have h0 : 0 < xs.length := by omega
    exact_mod_cast h0
  have hylen : (ys.length : ℚ) = (xs.length : ℚ) := by rw [hlen]
  -- the central inequality SS_res ≤ SS_tot
  have hols := @ols_ssres_le_sstot (xs.length : ℚ) xs.sum ys.sum
    ((xs.map (fun x => x ^ 2)).sum) ((List.zipWith (fun x y => x * y) xs ys).sum)
    ((ys.map (fun y => y ^ 2)).sum) m b hn (cauchy_sq_le xs) hm hb
  have hkey : (List.zipWith (fun y x => (y - (m * x + b)) ^ 2) ys xs).sum
      ≤ (ys.map (fun y => (y - meanQ ys) ^ 2)).sum := by
    rw [zip_res_expand ys xs hlen.symm m b, sum_sq_dev_expand ys (meanQ ys), meanQ, hylen]
    linarith [hols]
  -- conclude from the branch structure
  split_ifs at hr2 with htot hres
  · subst hr2
    norm_num
  · subst hr2
    norm_num
  · have htotpos : (0 : ℚ) < (ys.map (fun y => (y - meanQ ys) ^ 2)).sum := by
      have h15 : (0 : ℚ) < 1e-15 := by norm_num
      push_neg at htot
      linarith
    have hdiv0 : 0 ≤ (List.zipWith (fun y x => (y - (m * x + b)) ^ 2) ys xs).sum
        / (ys.map (fun y => (y - meanQ ys) ^ 2)).sum := div_nonneg hres0 htotpos.le
    have hdiv1 : (List.zipWith (fun y x => (y - (m * x + b)) ^ 2) ys xs).sum
        / (ys.map (fun y => (y - meanQ ys) ^ 2)).sum ≤ 1 :=
      (div_le_one htotpos).mpr hkey
    subst hr2
    constructor <;> linarith

theorem claim_C5_witness :
    fit_linear_db (some [0, 1]) (some [0, 1]) = some (1, 0) ∧
    calculate_r_squared_linear (some [0, 1]) (some [0, 1]) (some (1, 0)) = some 1 ∧
    (0 : ℚ) ≤ 1 ∧ (1 : ℚ) ≤ 1 := by
  have hfit : fit_linear_db (some [0, 1]) (some [0, 1]) = some (1, 0) := by
    norm_num [fit_linear_db]
  have hr : calculate_r_squared_linear (some [0, 1]) (some [0, 1]) (some (1, 0)) = some 1 := by
    norm_num [calculate_r_squared_linear]
  exact ⟨hfit, hr, claim_C5 [0, 1] [0, 1] rfl (by norm_num) 1 0 1 hfit hr⟩

/-- C9 counterexample: on an input with no issue at all (good fit quality,
a clear loss slope, no noise, no saturation) the report is still the
two-message list, not the single "fit looks reasonable" fallback — the
fit-quality rule appends a message unconditionally, so the message list is
never empty and the fallback is unreachable. -/
theorem claim_C9_counterexample :
    generate_feedback (some ⟨99/100, -5⟩) (some [100, 50, 25]) (some [0, 1, 2])
      = some (Report.messages [FeedbackMsg.goodFit, FeedbackMsg.lossFitted]) := by
  norm_num [generate_feedback, npMax, npMin, ptpQ, varQ, npDiff, meanQ,
    INFO_R_SQUARED_THRESHOLD, INFO_SLOPE_NEAR_ZERO_THRESHOLD]
  decide

/-- C9 (amended): whenever feedback is generated (fit parameters present
and a nonempty profile), the report is the joined nonempty message list
and always contains a fit-quality message; the no-issues fallback report
is unreachable. -/
theorem claim_C9_amended (p : FitParams) (l : List ℚ) (hl : l ≠ [])
    (xd : Option (List ℚ)) :
    ∃ msgs : List FeedbackMsg, msgs ≠ [] ∧
      (FeedbackMsg.poorFit ∈ msgs ∨ FeedbackMsg.goodFit ∈ msgs) ∧
      generate_feedback (some p) (some l) xd = some (Report.messages msgs) := by
  simp only [generate_feedback, if_neg hl, List.cons_append, List.nil_append]
  refine ⟨_, List.cons_ne_nil _ _, ?_, by rw [if_neg (List.cons_ne_nil _ _)]⟩
  by_cases hc : p.r_squared < INFO_R_SQUARED_THRESHOLD
  · refine Or.inl ?_
    rw [if_pos hc]
    exact List.mem_cons_self _ _
  · refine Or.inr ?_
    rw [if_neg hc]
    exact List.mem_cons_self _ _

theorem claim_C9_witness :
    ∃ msgs : List FeedbackMsg, msgs ≠ [] ∧
      (FeedbackMsg.poorFit ∈ msgs ∨ FeedbackMsg.goodFit ∈ msgs) ∧
      generate_feedback (some ⟨9/10, -3⟩) (some [10, 5, 2]) none =
        some (Report.messages msgs) :=
  claim_C9_amended ⟨9/10, -3⟩ [10, 5, 2] (by simp) none
